import Mathlib

/-!
Shallow embedding of the core subsystems of the `unfound` repository:
the page allocators (`src/modules/axalloc/src/allocators/{buddy,hybrid}.rs`),
the ARC cache (`src/xmodules/ucache/src/arc_cache.rs`), the notification bus
(`src/umodules/unotify/src/watcher.rs`) and the VFS hook layer
(`src/unfound-fs/src/fs_hooks.rs`).

Machine integers (`usize`) are modelled as `Nat`; the operations involved
never rely on wrap-around (subtraction appears only where the source has
already established the minuend is at least the subtrahend, except for
`saturating_sub`, which coincides with `Nat` subtraction).  Rust `Vec` and
`VecDeque` become `List` (front of the list = front of the deque; `push_back`
appends at the end, `Vec::push`/`pop` act on the end of the list).  `BTreeMap`
becomes an association list sorted by key, so that iteration order in the
model matches the ascending-key iteration order of the source.
-/

deriving instance DecidableEq for Except

namespace Unfound

/-- Error kinds of the `allocator` crate used by the page allocators. -/
inductive AllocError where
  | InvalidParam
  | NoMemory
  deriving DecidableEq, Repr

/-- Page size constant (`PAGE_SIZE = 4096` in both allocator files). -/
def PAGE_SIZE : Nat := 4096

/-! ### Sorted association lists, modelling `BTreeMap` -/

/-- Insert into an association list sorted by ascending key, replacing an
existing binding (models `BTreeMap::insert`). -/
def slInsert {β : Type} : List (Nat × β) → Nat → β → List (Nat × β)
  | [], k, v => [(k, v)]
  | (k', v') :: rest, k, v =>
    if k < k' then (k, v) :: (k', v') :: rest
    else if k = k' then (k, v) :: rest
    else (k', v') :: slInsert rest k v

/-- Look up a key (models `BTreeMap::get`). -/
def slLookup {β : Type} : List (Nat × β) → Nat → Option β
  | [], _ => none
  | (k', v') :: rest, k => if k = k' then some v' else slLookup rest k

/-- Remove a key, leaving the list unchanged when absent
(models `BTreeMap::remove`). -/
def slRemove {β : Type} : List (Nat × β) → Nat → List (Nat × β)
  | [], _ => []
  | (k', v') :: rest, k => if k = k' then rest else (k', v') :: slRemove rest k

/-- Greatest binding with key strictly below `k`
(models `BTreeMap::range(..k).next_back()`). -/
def slPredBelow {β : Type} : List (Nat × β) → Nat → Option (Nat × β)
  | [], _ => none
  | (k', v') :: rest, k =>
    if k' < k then
      match slPredBelow rest k with
      | some r => some r
      | none => some (k', v')
    else none

/-- Least binding with key at least `k`
(models `BTreeMap::range(k..).next()`). -/
def slSuccFrom {β : Type} : List (Nat × β) → Nat → Option (Nat × β)
  | [], _ => none
  | (k', v') :: rest, k => if k ≤ k' then some (k', v') else slSuccFrom rest k

/-! ### Buddy allocator (`allocators/buddy.rs`) -/

/-- State of `BuddyAllocator`: `free_lists[order]` holds start indices (in
pages) of free blocks of size `2^order`; `alloc_map` maps a start index to
the order of the live allocation there. -/
structure BuddyAllocator where
  base : Nat
  total_pages : Nat
  max_order : Nat
  free_lists : List (List Nat)
  alloc_map : List (Nat × Nat)
  used_pages : Nat
  deriving DecidableEq, Repr

/-- Structural floor-log2 with fuel (`n` halvings always suffice); models the
`usize::BITS - 1 - leading_zeros` computation of the source. -/
def log2F : Nat → Nat → Nat
  | 0, _ => 0
  | fuel + 1, n => if 2 ≤ n then log2F fuel (n / 2) + 1 else 0

/-- Floor of the base-2 logarithm (0 at 0), used for `max_order` and the
greedy block split of `init`. -/
def floorLog2 (n : Nat) : Nat := log2F n n

/-- Loop body of `ceil_log2`: `while v < n { v <<= 1; r += 1 }`, with
explicit fuel (`n` doublings always suffice). -/
def ceilLog2Aux (n : Nat) : Nat → Nat → Nat → Nat
  | 0, _, r => r
  | fuel + 1, v, r => if v < n then ceilLog2Aux n fuel (2 * v) (r + 1) else r

/-- Model of `ceil_log2` in `buddy.rs`: least `r` with `2^r ≥ n`
(0 for `n ≤ 1`). -/
def ceil_log2 (n : Nat) : Nat :=
  if n ≤ 1 then 0 else ceilLog2Aux n n 1 0

/-- Model of Rust `usize::next_power_of_two`: the least power of two that is
at least `n` (1 for `n = 0`). -/
def nextPowerOfTwo (n : Nat) : Nat := 2 ^ ceil_log2 n

/-- Model of Rust `usize::is_power_of_two`. -/
def isPowerOfTwo (n : Nat) : Bool := n != 0 && n == 2 ^ floorLog2 n

/-- Model of `BuddyAllocator::push_free`: grow `free_lists` to `order + 1`
entries if needed, then push `idx` on the stack for `order`. -/
def BuddyAllocator.push_free (s : BuddyAllocator) (order idx : Nat) : BuddyAllocator :=
  let lists := if order ≥ s.free_lists.length
    then s.free_lists ++ List.replicate (order + 1 - s.free_lists.length) []
    else s.free_lists
  { s with free_lists := lists.set order (lists.getD order [] ++ [idx]) }

/-- Model of `BuddyAllocator::pop_free` (`Vec::pop`: ends of the list). -/
def BuddyAllocator.pop_free (s : BuddyAllocator) (order : Nat) :
    Option Nat × BuddyAllocator :=
  if order ≥ s.free_lists.length then (none, s)
  else
    let l := s.free_lists.getD order []
    match l.getLast? with
    | none => (none, s)
    | some idx => (some idx, { s with free_lists := s.free_lists.set order l.dropLast })

/-- Model of `Vec::swap_remove pos`: move the last element into `pos` and
shrink by one. -/
def swapRemove (l : List Nat) (pos : Nat) : List Nat :=
  match l.getLast? with
  | none => l
  | some last => (l.set pos last).dropLast

/-- Model of `BuddyAllocator::remove_free_exact`: remove the first occurrence
of `idx` from the free list of `order` via `swap_remove`, reporting success. -/
def BuddyAllocator.remove_free_exact (s : BuddyAllocator) (order idx : Nat) :
    Bool × BuddyAllocator :=
  if order ≥ s.free_lists.length then (false, s)
  else
    let l := s.free_lists.getD order []
    match l.findIdx? (· == idx) with
    | none => (false, s)
    | some pos =>
      (true, { s with free_lists := s.free_lists.set order (swapRemove l pos) })

/-- Seeding loop of `BuddyAllocator::init`: split `total_pages` into maximal
power-of-two blocks, greedily by leading bit (`floorLog2` is exactly
`usize::BITS - 1 - leading_zeros` for a nonzero argument); the first argument
is loop fuel. -/
def buddySeedF : Nat → BuddyAllocator → Nat → Nat → BuddyAllocator
  | 0, s, _, _ => s
  | fuel + 1, s, offset, remaining =>
    if remaining = 0 then s
    else buddySeedF fuel (s.push_free (floorLog2 remaining) offset)
      (offset + 2 ^ floorLog2 remaining) (remaining - 2 ^ floorLog2 remaining)

/-- Seeding loop entry point: each iteration removes at least one page, so
`remaining` rounds of fuel always suffice. -/
def buddySeed (s : BuddyAllocator) (offset remaining : Nat) : BuddyAllocator :=
  buddySeedF remaining s offset remaining

/-- Model of `BuddyAllocator::init`: round the region inward to page
boundaries, compute `max_order`, seed the free lists.  The source resets the
allocator in place; the model returns the fresh state. -/
def BuddyAllocator.init (start_vaddr size : Nat) : Except AllocError BuddyAllocator :=
  let endAddr := (start_vaddr + size) / PAGE_SIZE * PAGE_SIZE
  let start := (start_vaddr + PAGE_SIZE - 1) / PAGE_SIZE * PAGE_SIZE
  if endAddr ≤ start then .error .InvalidParam
  else
    let total_pages := (endAddr - start) / PAGE_SIZE
    if total_pages = 0 then .error .InvalidParam
    else
      let mo := floorLog2 total_pages
      let s : BuddyAllocator :=
        { base := start, total_pages := total_pages, max_order := mo,
          free_lists := List.replicate (mo + 1) [], alloc_map := [], used_pages := 0 }
      .ok (buddySeed s 0 total_pages)

/-- Splitting loop of `alloc_pages`: while `cur_order > order`, decrement and
push the upper half onto the free list of the new order. -/
def buddySplit (s : BuddyAllocator) (idx order : Nat) : Nat → BuddyAllocator
  | 0 => s
  | c + 1 =>
    if order ≤ c then buddySplit (s.push_free c (idx + 2 ^ c)) idx order c else s

/-- Scanning loop of `alloc_pages`: try orders `o, o+1, ..., max_order`; the
fuel argument counts the remaining candidate orders, so fuel `mo + 1 - o`
runs exactly the source loop `while o <= max_order`. -/
def buddyScanF (order : Nat) : Nat → BuddyAllocator → Nat →
    Except AllocError (Nat × BuddyAllocator)
  | 0, _, _ => .error .NoMemory
  | fuel + 1, s, o =>
    match s.pop_free o with
    | (some idx, s') =>
      let s'' := buddySplit s' idx order o
      let s3 := { s'' with alloc_map := slInsert s''.alloc_map idx order,
                           used_pages := s''.used_pages + 2 ^ order }
      .ok (s3.base + idx * PAGE_SIZE, s3)
    | (none, s') => buddyScanF order fuel s' (o + 1)

/-- Scanning loop entry point. -/
def buddyScan (s : BuddyAllocator) (order mo : Nat) : Except AllocError (Nat × BuddyAllocator) :=
  buddyScanF order (mo + 1 - order) s order

/-- Model of `BuddyAllocator::alloc_pages`. -/
def BuddyAllocator.alloc_pages (s : BuddyAllocator) (num_pages align_pow2 : Nat) :
    Except AllocError (Nat × BuddyAllocator) :=
  if num_pages = 0 then .error .InvalidParam
  else if align_pow2 < PAGE_SIZE || !isPowerOfTwo align_pow2 then .error .InvalidParam
  else
    let needed := nextPowerOfTwo num_pages
    let order := ceil_log2 needed
    buddyScan s order s.max_order

/-- Coalescing loop of `dealloc_pages`: while the buddy of the current block
is free, absorb it and move one order up; stops past `max_order`.  Returns the
final index, the final order, and the state after the removals.  The fuel
argument bounds the iterations; the order strictly increases and the loop
breaks once it passes `mo`, so `mo + 1` rounds always suffice. -/
def buddyCoalesceF (mo : Nat) : Nat → BuddyAllocator → Nat → Nat →
    Nat × Nat × BuddyAllocator
  | 0, s, idx, cur => (idx, cur, s)
  | fuel + 1, s, idx, cur =>
    let buddy_idx := idx ^^^ 2 ^ cur
    match s.remove_free_exact cur buddy_idx with
    | (true, s') =>
      let idx' := min idx buddy_idx
      if mo < cur + 1 then (idx', cur + 1, s')
      else buddyCoalesceF mo fuel s' idx' (cur + 1)
    | (false, _) => (idx, cur, s)

/-- Coalescing loop entry point. -/
def buddyCoalesce (mo : Nat) (s : BuddyAllocator) (idx cur : Nat) :
    Nat × Nat × BuddyAllocator :=
  buddyCoalesceF mo (mo + 1) s idx cur

/-- Model of `BuddyAllocator::dealloc_pages` (the page count argument is
ignored by the source; the recorded order is authoritative). -/
def BuddyAllocator.dealloc_pages (s : BuddyAllocator) (pos _num_pages : Nat) :
    BuddyAllocator :=
  if pos < s.base ∨ pos ≥ s.base + s.total_pages * PAGE_SIZE then s
  else if ¬ (pos % PAGE_SIZE = 0) then s
  else
    let idx := (pos - s.base) / PAGE_SIZE
    match slLookup s.alloc_map idx with
    | none => s
    | some order =>
      let s1 := { s with alloc_map := slRemove s.alloc_map idx }
      let (idx', cur', s2) := buddyCoalesce s1.max_order s1 idx order
      let s3 := s2.push_free cur' idx'
      { s3 with used_pages := s3.used_pages - 2 ^ order }

/-! ### Hybrid allocator (`allocators/hybrid.rs`) -/

/-- Threshold of `hybrid.rs`: requests of at least this many pages go to the
free-list pool, smaller ones to the bitmap pool. -/
def THRESHOLD_PAGES : Nat := 64

/-- State of `HybridAllocator`.  The bitmap is the byte vector of the source
(one bit per page, bit set = free); `free_list` maps a start index to a block
size in pages; `alloc_map` maps a start index to `(size, is_large)`. -/
structure HybridAllocator where
  base : Nat
  total_pages : Nat
  bitmap : List Nat
  free_list : List (Nat × Nat)
  alloc_map : List (Nat × (Nat × Bool))
  used_pages : Nat
  deriving DecidableEq, Repr

/-- Test one page bit of the bitmap (bit set = free).  Out-of-range byte
indices read as 0, i.e. not free (the source would panic there; no modelled
operation reaches that case on the inputs the claims use). -/
def bitFree (bm : List Nat) (i : Nat) : Bool :=
  Nat.testBit (bm.getD (i / 8) 0) (i % 8)

/-- Set one page bit (helper for `mark_free`). -/
def bitSet (bm : List Nat) (i : Nat) : List Nat :=
  bm.set (i / 8) (bm.getD (i / 8) 0 ||| 2 ^ (i % 8))

/-- Clear one page bit (helper for `mark_allocated`; bytes are below 256, so
masking with the complemented byte `0xFF ^^^ bit` models `&= !(1 << bit)`). -/
def bitClear (bm : List Nat) (i : Nat) : List Nat :=
  bm.set (i / 8) (Nat.land (bm.getD (i / 8) 0) (0xFF ^^^ 2 ^ (i % 8)))

/-- Model of `HybridAllocator::mark_free`: set `count` bits starting at
`start_idx`, skipping indices at or beyond `total_pages`. -/
def HybridAllocator.mark_free (s : HybridAllocator) (start_idx count : Nat) :
    HybridAllocator :=
  { s with bitmap := ((List.range count).foldl
      (fun bm j => if start_idx + j < s.total_pages then bitSet bm (start_idx + j) else bm)
      s.bitmap) }

/-- Model of `HybridAllocator::mark_allocated`: clear `count` bits starting at
`start_idx`, skipping indices at or beyond `total_pages`. -/
def HybridAllocator.mark_allocated (s : HybridAllocator) (start_idx count : Nat) :
    HybridAllocator :=
  { s with bitmap := ((List.range count).foldl
      (fun bm j => if start_idx + j < s.total_pages then bitClear bm (start_idx + j) else bm)
      s.bitmap) }

/-- Check that `needed` consecutive bits starting at `start` are all free
(the inner loop of `find_free_in_bitmap`). -/
def runFree (bm : List Nat) : Nat → Nat → Bool
  | _, 0 => true
  | start, needed + 1 => bitFree bm start && runFree bm (start + 1) needed

/-- Scanning loop of `find_free_in_bitmap`: try `start` upward, `fuel` many
candidate positions. -/
def ffbScan (bm : List Nat) (needed : Nat) : Nat → Nat → Option Nat
  | _, 0 => none
  | start, fuel + 1 =>
    if runFree bm start needed then some start else ffbScan bm needed (start + 1) fuel

/-- Model of `HybridAllocator::find_free_in_bitmap`: first start index of a
run of `needed` free pages, scanning `0 .. total_pages - needed` inclusive. -/
def HybridAllocator.find_free_in_bitmap (s : HybridAllocator) (needed : Nat) : Option Nat :=
  ffbScan s.bitmap needed 0 (s.total_pages - needed + 1)

/-- Model of `HybridAllocator::find_free_block`: first entry of the free list
(in ascending start-index order, as `BTreeMap` iteration) whose size fits. -/
def findFirstFit (needed : Nat) : List (Nat × Nat) → Option (Nat × Nat)
  | [] => none
  | (idx, size) :: rest =>
    if needed ≤ size then some (idx, size) else findFirstFit needed rest

/-- Free-list lookup used by `HybridAllocator::alloc_pages`. -/
def HybridAllocator.find_free_block (s : HybridAllocator) (needed_pages : Nat) :
    Option (Nat × Nat) :=
  findFirstFit needed_pages s.free_list

/-- Model of `HybridAllocator::split_block`: return the unused tail of an
oversized block to the free list. -/
def HybridAllocator.split_block (s : HybridAllocator)
    (start_idx original_size needed_size : Nat) : HybridAllocator :=
  if needed_size < original_size then
    { s with free_list :=
        slInsert s.free_list (start_idx + needed_size) (original_size - needed_size) }
  else s

/-- Successor half of `try_merge`: absorb the block that begins exactly at
`end_idx`, growing the entry at `start_idx` (`BTreeMap::insert` replaces). -/
def tryMergeNext (fl : List (Nat × Nat)) (start_idx size end_idx : Nat) :
    List (Nat × Nat) :=
  match slSuccFrom fl end_idx with
  | some (next_idx, next_size) =>
    if next_idx = end_idx then slInsert (slRemove fl next_idx) start_idx (size + next_size)
    else fl
  | none => fl

/-- Model of `HybridAllocator::try_merge`: if the predecessor block ends
exactly at `start_idx`, its entry is grown to cover the freed block and the
function returns (the source keeps the freed block's own entry in that
branch); otherwise a successor beginning at `end_idx` is absorbed. -/
def HybridAllocator.try_merge (s : HybridAllocator) (start_idx size : Nat) :
    HybridAllocator :=
  let end_idx := start_idx + size
  match slPredBelow s.free_list start_idx with
  | some (prev_idx, prev_size) =>
    if prev_idx + prev_size = start_idx then
      { s with free_list :=
          slInsert (slRemove s.free_list prev_idx) prev_idx (prev_size + size) }
    else { s with free_list := tryMergeNext s.free_list start_idx size end_idx }
  | none => { s with free_list := tryMergeNext s.free_list start_idx size end_idx }

/-- Model of `HybridAllocator::init`: bitmap all-free (with the unused bits of
the last byte cleared), one whole-region free-list block, empty maps. -/
def HybridAllocator.init (start_vaddr size : Nat) : Except AllocError HybridAllocator :=
  let endAddr := (start_vaddr + size) / PAGE_SIZE * PAGE_SIZE
  let start := (start_vaddr + PAGE_SIZE - 1) / PAGE_SIZE * PAGE_SIZE
  if endAddr ≤ start then .error .InvalidParam
  else
    let total_pages := (endAddr - start) / PAGE_SIZE
    if total_pages = 0 then .error .InvalidParam
    else
      let bitmap_size := (total_pages + 7) / 8
      let full := List.replicate bitmap_size 0xFF
      let bitmap := if total_pages % 8 ≠ 0 then
          full.set (bitmap_size - 1) (0xFF % 2 ^ (total_pages % 8))
        else full
      .ok { base := start, total_pages := total_pages, bitmap := bitmap,
            free_list := [(0, total_pages)], alloc_map := [], used_pages := 0 }

/-- Model of `HybridAllocator::alloc_pages`: requests of `THRESHOLD_PAGES`
pages or more are served from the free list, smaller ones from the bitmap. -/
def HybridAllocator.alloc_pages (s : HybridAllocator) (num_pages align_pow2 : Nat) :
    Except AllocError (Nat × HybridAllocator) :=
  if num_pages = 0 then .error .InvalidParam
  else if align_pow2 < PAGE_SIZE || !isPowerOfTwo align_pow2 then .error .InvalidParam
  else if num_pages ≥ THRESHOLD_PAGES then
    match s.find_free_block num_pages with
    | some (block_idx, block_size) =>
      let s1 := { s with free_list := slRemove s.free_list block_idx }
      let s2 := s1.split_block block_idx block_size num_pages
      let s3 := { s2 with alloc_map := slInsert s2.alloc_map block_idx (num_pages, true),
                          used_pages := s2.used_pages + num_pages }
      .ok (s3.base + block_idx * PAGE_SIZE, s3)
    | none => .error .NoMemory
  else
    match s.find_free_in_bitmap num_pages with
    | some block_idx =>
      let s1 := s.mark_allocated block_idx num_pages
      let s2 := { s1 with alloc_map := slInsert s1.alloc_map block_idx (num_pages, false),
                          used_pages := s1.used_pages + num_pages }
      .ok (s2.base + block_idx * PAGE_SIZE, s2)
    | none => .error .NoMemory

/-- Model of `HybridAllocator::dealloc_pages`: out-of-range, unaligned, or
unknown start addresses are silent no-ops; otherwise the recorded extent is
returned to the pool that owns it. -/
def HybridAllocator.dealloc_pages (s : HybridAllocator) (pos _num_pages : Nat) :
    HybridAllocator :=
  if pos < s.base ∨ pos ≥ s.base + s.total_pages * PAGE_SIZE then s
  else if ¬ (pos % PAGE_SIZE = 0) then s
  else
    let idx := (pos - s.base) / PAGE_SIZE
    match slLookup s.alloc_map idx with
    | none => s
    | some (size, is_large) =>
      let s1 := { s with alloc_map := slRemove s.alloc_map idx }
      let s2 :=
        if is_large then
          let sIns := { s1 with free_list := slInsert s1.free_list idx size }
          sIns.try_merge idx size
        else s1.mark_free idx size
      { s2 with used_pages := s2.used_pages - size }

/-! ### ARC cache (`ucache/src/arc_cache.rs`) -/

/-- Cache entry of `arc_cache.rs` (the `dirty` flag is carried but never set
by the cache itself). -/
structure CacheEntry (V : Type) where
  value : V
  dirty : Bool
  deriving DecidableEq, Repr

/-- State of `ARCache`: the four key deques (front of the list = LRU end,
`push_back` appends), the value store, the adaptive partition `p`, the fixed
capacity and the two counters. -/
structure ARCache (K V : Type) where
  t1 : List K
  t2 : List K
  b1 : List K
  b2 : List K
  cache : List (K × CacheEntry V)
  p : Nat
  capacity : Nat
  hits : Nat
  misses : Nat
  deriving DecidableEq, Repr

/-- Model of `ARCache::new`. -/
def ARCache.new (K V : Type) (capacity : Nat) : ARCache K V :=
  { t1 := [], t2 := [], b1 := [], b2 := [], cache := [], p := 0,
    capacity := capacity, hits := 0, misses := 0 }

variable {K V : Type} [DecidableEq K]

/-- Association-list lookup for the value store (`BTreeMap::get`; key order is
irrelevant to the claims, so the store is kept in insertion order). -/
def amLookup : List (K × CacheEntry V) → K → Option (CacheEntry V)
  | [], _ => none
  | (k', v') :: rest, k => if k = k' then some v' else amLookup rest k

/-- Association-list insert-or-replace (`BTreeMap::insert`). -/
def amInsert : List (K × CacheEntry V) → K → CacheEntry V → List (K × CacheEntry V)
  | [], k, v => [(k, v)]
  | (k', v') :: rest, k, v =>
    if k = k' then (k, v) :: rest else (k', v') :: amInsert rest k v

/-- Association-list removal (`BTreeMap::remove`); absent keys leave the list
untouched. -/
def amRemove : List (K × CacheEntry V) → K → List (K × CacheEntry V)
  | [], _ => []
  | (k', v') :: rest, k => if k = k' then rest else (k', v') :: amRemove rest k

/-- Remove the first occurrence of a key from a deque (the
`position` / `remove` idiom of `promote_to_t2`). -/
def removeFirst : List K → K → List K
  | [], _ => []
  | x :: xs, k => if x = k then xs else x :: removeFirst xs k

/-- Model of `ARCache::promote_to_t2`: a key found in T1 moves to the MRU end
of T2; a key already in T2 moves to its MRU end; otherwise nothing happens. -/
def ARCache.promote_to_t2 (s : ARCache K V) (key : K) : ARCache K V :=
  if key ∈ s.t1 then
    { s with t1 := removeFirst s.t1 key, t2 := s.t2 ++ [key] }
  else if key ∈ s.t2 then
    { s with t2 := removeFirst s.t2 key ++ [key] }
  else s

/-- Model of `ARCache::get`: a hit bumps `hits` and promotes the key to T2;
a miss bumps `misses`.  Returns the value (read back after the promotion,
as the source does) together with the new state. -/
def ARCache.get (s : ARCache K V) (key : K) : Option V × ARCache K V :=
  match amLookup s.cache key with
  | some _ =>
    let s' := ARCache.promote_to_t2 { s with hits := s.hits + 1 } key
    ((amLookup s'.cache key).map CacheEntry.value, s')
  | none => (none, { s with misses := s.misses + 1 })

/-- Model of `ARCache::replace`: evict the LRU of T1 to B1 when
`|T1| > 0 ∧ (|T1| > p ∨ (key ∈ B2 ∧ |T1| = p))`, otherwise the LRU of T2 to
B2; either ghost list is trimmed at its front when it outgrows `capacity`. -/
def ARCache.replace (s : ARCache K V) (key : K) : ARCache K V :=
  let t1_len := s.t1.length
  if 0 < t1_len ∧ (s.p < t1_len ∨ (key ∈ s.b2 ∧ t1_len = s.p)) then
    match s.t1 with
    | [] => s
    | old_key :: rest =>
      let b1' := s.b1 ++ [old_key]
      { s with t1 := rest, cache := amRemove s.cache old_key,
               b1 := if s.capacity < b1'.length then b1'.drop 1 else b1' }
  else
    match s.t2 with
    | [] => s
    | old_key :: rest =>
      let b2' := s.b2 ++ [old_key]
      { s with t2 := rest, cache := amRemove s.cache old_key,
               b2 := if s.capacity < b2'.length then b2'.drop 1 else b2' }

/-- Model of `ARCache::handle_b1_hit`: raise `p` by
`max(1, |B2|/|B1|)` capped at `capacity`, drop the key from B1, run the
replacement, then install the key at the MRU end of T2. -/
def ARCache.handle_b1_hit (s : ARCache K V) (key : K) (value : V) : ARCache K V :=
  let b1_len := s.b1.length
  let b2_len := s.b2.length
  let delta := if b2_len ≤ b1_len then 1 else b2_len / b1_len
  let s1 := { s with p := min (s.p + delta) s.capacity,
                     b1 := s.b1.filter (· ≠ key) }
  let s2 := s1.replace key
  { s2 with cache := amInsert s2.cache key ⟨value, false⟩, t2 := s2.t2 ++ [key] }

/-- Model of `ARCache::handle_b2_hit`: lower `p` by `max(1, |B1|/|B2|)`
(saturating at 0), drop the key from B2, run the replacement, then install
the key at the MRU end of T2. -/
def ARCache.handle_b2_hit (s : ARCache K V) (key : K) (value : V) : ARCache K V :=
  let b1_len := s.b1.length
  let b2_len := s.b2.length
  let delta := if b1_len ≤ b2_len then 1 else b1_len / b2_len
  let s1 := { s with p := s.p - delta,
                     b2 := s.b2.filter (· ≠ key) }
  let s2 := s1.replace key
  { s2 with cache := amInsert s2.cache key ⟨value, false⟩, t2 := s2.t2 ++ [key] }

/-- Model of `ARCache::insert_new`: the fresh-key case of `put`.  When
`|T1|+|B1| = capacity` either B1's LRU is dropped and the replacement runs, or
T1's LRU is dropped outright; otherwise, when the four lists total at least
`2·capacity`, B2's LRU is dropped on equality and the replacement runs.  The
key then enters at the MRU end of T1. -/
def ARCache.insert_new (s : ARCache K V) (key : K) (value : V) : ARCache K V :=
  let t1_len := s.t1.length
  let t2_len := s.t2.length
  let b1_len := s.b1.length
  let l1_len := t1_len + b1_len
  let s1 :=
    if l1_len = s.capacity then
      if t1_len < s.capacity then
        ARCache.replace { s with b1 := s.b1.drop 1 } key
      else
        match s.t1 with
        | [] => s
        | old_key :: rest => { s with t1 := rest, cache := amRemove s.cache old_key }
    else
      let total := t1_len + t2_len + b1_len + s.b2.length
      if 2 * s.capacity ≤ total then
        ARCache.replace
          (if total = 2 * s.capacity then { s with b2 := s.b2.drop 1 } else s) key
      else s
  { s1 with cache := amInsert s1.cache key ⟨value, false⟩, t1 := s1.t1 ++ [key] }

/-- Model of `ARCache::put`: the four-way ARC case split. -/
def ARCache.put (s : ARCache K V) (key : K) (value : V) : ARCache K V :=
  match amLookup s.cache key with
  | some _ =>
    ARCache.promote_to_t2 { s with cache := amInsert s.cache key ⟨value, false⟩ } key
  | none =>
    if key ∈ s.b1 then s.handle_b1_hit key value
    else if key ∈ s.b2 then s.handle_b2_hit key value
    else s.insert_new key value

/-- Model of `ARCache::invalidate`: purge the key from the store and all four
lists (`retain` removes every occurrence). -/
def ARCache.invalidate (s : ARCache K V) (key : K) : ARCache K V :=
  { s with cache := amRemove s.cache key,
           t1 := s.t1.filter (· ≠ key), t2 := s.t2.filter (· ≠ key),
           b1 := s.b1.filter (· ≠ key), b2 := s.b2.filter (· ≠ key) }

/-! ### Notification bus (`unotify/src/watcher.rs`, `unotify/src/event.rs`) -/

/-- Event kinds of `event.rs`; the discriminant values are the mask bits. -/
inductive EventType where
  | Create
  | Modify
  | Delete
  | Access
  deriving DecidableEq, Repr

/-- Discriminant of `EventType` (`event.event_type as u32`). -/
def EventType.toBits : EventType → Nat
  | .Create => 1
  | .Modify => 2
  | .Delete => 4
  | .Access => 8

/-- Notification event of `event.rs` (`NotifyEvent::new` fixes the timestamp
at 0, see the TODO in the source). -/
structure NotifyEvent where
  event_type : EventType
  path : String
  timestamp : Nat
  deriving DecidableEq, Repr

/-- Watch entry of `watcher.rs`. -/
structure WatchEntry where
  wd : Nat
  path : String
  mask : Nat
  deriving DecidableEq, Repr

/-- Model of Rust `str::starts_with` on the character sequences of the two
strings. -/
def strStartsWith (s pre : String) : Bool :=
  pre.data.isPrefixOf s.data

/-- State of `FileWatcher`: the bounded event queue, the watch table keyed by
watch descriptor (sorted by key, as `BTreeMap`), the next descriptor and the
queue bound (1024 in `FileWatcher::new`). -/
structure FileWatcher where
  event_queue : List NotifyEvent
  watches : List (Nat × WatchEntry)
  next_wd : Nat
  max_events : Nat
  deriving DecidableEq, Repr

/-- Model of `FileWatcher::new`. -/
def FileWatcher.new : FileWatcher :=
  { event_queue := [], watches := [], next_wd := 1, max_events := 1024 }

/-- Generic sorted-association-list insert for the watch table. -/
def wlInsert : List (Nat × WatchEntry) → Nat → WatchEntry → List (Nat × WatchEntry)
  | [], k, v => [(k, v)]
  | (k', v') :: rest, k, v =>
    if k < k' then (k, v) :: (k', v') :: rest
    else if k = k' then (k, v) :: rest
    else (k', v') :: wlInsert rest k v

/-- Remove a watch-table key, reporting whether it was present. -/
def wlRemove : List (Nat × WatchEntry) → Nat → Bool × List (Nat × WatchEntry)
  | [], _ => (false, [])
  | (k', v') :: rest, k =>
    if k = k' then (true, rest)
    else
      let (found, rest') := wlRemove rest k
      (found, (k', v') :: rest')

/-- Model of `FileWatcher::add_watch`: assign the next descriptor, record the
subscription, return the descriptor. -/
def FileWatcher.add_watch (s : FileWatcher) (path : String) (mask : Nat) :
    Nat × FileWatcher :=
  let wd := s.next_wd
  (wd, { s with next_wd := s.next_wd + 1,
                watches := wlInsert s.watches wd ⟨wd, path, mask⟩ })

/-- Model of `FileWatcher::remove_watch` (`NotFound` on unknown `wd`,
represented by `none`). -/
def FileWatcher.remove_watch (s : FileWatcher) (wd : Nat) : Option Unit × FileWatcher :=
  match wlRemove s.watches wd with
  | (true, w') => (some (), { s with watches := w' })
  | (false, _) => (none, s)

/-- Model of `FileWatcher::check_watch`: the mask of the first watch, in
ascending-descriptor order, whose path is a prefix of `path`. -/
def FileWatcher.check_watch (s : FileWatcher) (path : String) : Option Nat :=
  ((s.watches.map Prod.snd).find? (fun entry => strStartsWith path entry.path)).map
    WatchEntry.mask

/-- Bounded enqueue shared by `trigger` and `trigger_unchecked`: at
`max_events` the oldest entry is popped before the append. -/
def boundedPush (queue : List NotifyEvent) (max_events : Nat) (e : NotifyEvent) :
    List NotifyEvent :=
  (if max_events ≤ queue.length then queue.drop 1 else queue) ++ [e]

/-- Model of `FileWatcher::trigger`: consult `check_watch`, test the mask bit
of the event's kind, and enqueue (bounded) when it is set. -/
def FileWatcher.trigger (s : FileWatcher) (e : NotifyEvent) : FileWatcher :=
  match s.check_watch e.path with
  | some mask =>
    if Nat.land mask e.event_type.toBits ≠ 0 then
      { s with event_queue := boundedPush s.event_queue s.max_events e }
    else s
  | none => s

/-- Model of `FileWatcher::trigger_unchecked`: enqueue (bounded) with no
subscription filtering. -/
def FileWatcher.trigger_unchecked (s : FileWatcher) (e : NotifyEvent) : FileWatcher :=
  { s with event_queue := boundedPush s.event_queue s.max_events e }

/-- Model of `FileWatcher::read_events`: drain and return the first
`min(max_count, |queue|)` events. -/
def FileWatcher.read_events (s : FileWatcher) (max_count : Nat) :
    List NotifyEvent × FileWatcher :=
  let count := min max_count s.event_queue.length
  (s.event_queue.take count, { s with event_queue := s.event_queue.drop count })

/-- Model of `FileWatcher::pending_count`. -/
def FileWatcher.pending_count (s : FileWatcher) : Nat :=
  s.event_queue.length

/-- Reachable watcher states: everything obtainable from `FileWatcher.new` by
the public operations. -/
inductive WReachable : FileWatcher → Prop where
  | new : WReachable FileWatcher.new
  | add_watch (path : String) (mask : Nat) :
      WReachable s → WReachable (s.add_watch path mask).2
  | remove_watch (wd : Nat) :
      WReachable s → WReachable (s.remove_watch wd).2
  | trigger (e : NotifyEvent) :
      WReachable s → WReachable (s.trigger e)
  | trigger_unchecked (e : NotifyEvent) :
      WReachable s → WReachable (s.trigger_unchecked e)
  | read_events (max_count : Nat) :
      WReachable s → WReachable (s.read_events max_count).2

/-! ### VFS hook layer (`unfound-fs/src/fs_hooks.rs`)

The underlying VFS (`axfs::api`, an external collaborator of the core) is
modelled as an oracle: a function from the operation's arguments to the
success value or the error.  The hook functions thread the watcher state
explicitly; `trigger_event` builds the event exactly as the source does
(`NotifyEvent::new`, timestamp 0). -/

/-- Error kinds of `axerrno::AxError` that the hook layer surfaces. -/
inductive AxError where
  | NotFound
  | AlreadyExists
  | BadState
  deriving DecidableEq, Repr

/-- Model of `trigger_event` in `fs_hooks.rs`. -/
def trigger_event (w : FileWatcher) (event_type : EventType) (path : String) :
    FileWatcher :=
  w.trigger ⟨event_type, path, 0⟩

/-- Model of `read_file_with_notify`: the source triggers the `Access` event
first and only then performs the VFS open and read. -/
def read_file_with_notify (vfs_read : String → Except AxError (List Nat))
    (w : FileWatcher) (path : String) :
    Except AxError (List Nat) × FileWatcher :=
  let w1 := trigger_event w .Access path
  match vfs_read path with
  | .ok buf => (.ok buf, w1)
  | .error e => (.error e, w1)

/-- Model of `write_file_with_notify`: query metadata for prior existence,
delegate the open-truncate-write to the VFS, and on success emit `Create`
(for a fresh path) and then `Modify`. -/
def write_file_with_notify (vfs_metadata : String → Bool)
    (vfs_write : String → List Nat → Except AxError Nat)
    (w : FileWatcher) (path : String) (data : List Nat) :
    Except AxError Nat × FileWatcher :=
  let is_new_file := !vfs_metadata path
  match vfs_write path data with
  | .ok n =>
    let w1 := if is_new_file then trigger_event w .Create path else w
    (.ok n, trigger_event w1 .Modify path)
  | .error e => (.error e, w)

/-- Model of `remove_file_with_notify`: delegate, then emit `Delete`. -/
def remove_file_with_notify (vfs_remove : String → Except AxError Unit)
    (w : FileWatcher) (path : String) : Except AxError Unit × FileWatcher :=
  match vfs_remove path with
  | .ok _ => (.ok (), trigger_event w .Delete path)
  | .error e => (.error e, w)

/-- Model of `create_dir_with_notify`: delegate, then emit `Create`. -/
def create_dir_with_notify (vfs_create_dir : String → Except AxError Unit)
    (w : FileWatcher) (path : String) : Except AxError Unit × FileWatcher :=
  match vfs_create_dir path with
  | .ok _ => (.ok (), trigger_event w .Create path)
  | .error e => (.error e, w)

/-- Model of `remove_dir_with_notify`: delegate, then emit `Delete`. -/
def remove_dir_with_notify (vfs_remove_dir : String → Except AxError Unit)
    (w : FileWatcher) (path : String) : Except AxError Unit × FileWatcher :=
  match vfs_remove_dir path with
  | .ok _ => (.ok (), trigger_event w .Delete path)
  | .error e => (.error e, w)

/-- Model of `rename_with_notify`: delegate, then emit `Delete` on the old
path and `Create` on the new one. -/
def rename_with_notify (vfs_rename : String → String → Except AxError Unit)
    (w : FileWatcher) (old_path new_path : String) :
    Except AxError Unit × FileWatcher :=
  match vfs_rename old_path new_path with
  | .ok _ => (.ok (), trigger_event (trigger_event w .Delete old_path) .Create new_path)
  | .error e => (.error e, w)

/-! ## Concrete runs used by the claim theorems -/

/-- Scenario of spec §8.1: buddy init at `0x10000` with 32 pages, two
single-page allocations, then both freed in order. -/
def c7run : Except AllocError (Nat × Nat × BuddyAllocator) := do
  let s ← BuddyAllocator.init 0x10000 (32 * PAGE_SIZE)
  let (a1, s) ← s.alloc_pages 1 4096
  let (a2, s) ← s.alloc_pages 1 4096
  let s := s.dealloc_pages 0x10000 1
  let s := s.dealloc_pages 0x11000 1
  pure (a1, a2, s)

/-- ARC trace refuting the size invariant at capacity 1:
`new(1); put 0; get 0; put 1`. -/
def c1run : ARCache Nat Nat :=
  ((((ARCache.new Nat Nat 1).put 0 0).get 0).2).put 1 1

/-- Hybrid trace: a one-page bitmap allocation followed by a 64-page
free-list allocation, with no deallocation in between. -/
def c3run : Except AllocError (Nat × Nat) := do
  let s ← HybridAllocator.init 0 (128 * PAGE_SIZE)
  let (a1, s) ← s.alloc_pages 1 4096
  let (a2, _) ← s.alloc_pages 64 4096
  pure (a1, a2)

/-- Buddy trace: two one-page allocations requesting 8192-byte alignment. -/
def c4run : Except AllocError (Nat × Nat) := do
  let s ← BuddyAllocator.init 0x10000 (32 * PAGE_SIZE)
  let (a1, s) ← s.alloc_pages 1 8192
  let (a2, _) ← s.alloc_pages 1 8192
  pure (a1, a2)

/-- Watcher with a single catch-all `Access` watch, used for the hook-layer
failure scenario. -/
def c2watcher : FileWatcher := (FileWatcher.new.add_watch "/" 8).2

/-- Hook-layer run: `read_file_with_notify` against a VFS whose open fails. -/
def c2run : Except AxError (List Nat) × FileWatcher :=
  read_file_with_notify (fun _ => .error .NotFound) c2watcher "/f"

/-- Watcher with two watches on the same prefix `/a`: descriptor 1 carries
mask `Create`, descriptor 2 carries mask `Modify`. -/
def c5watcher : FileWatcher :=
  ((FileWatcher.new.add_watch "/a" 1).2.add_watch "/a" 2).2

/-- Modify event under `/a`, matched by watch 2 but not by watch 1. -/
def c5event : NotifyEvent := ⟨.Modify, "/a/x", 0⟩

/-- Reachable hybrid state with two free blocks of different sizes: pages
`[0,100)` (size 100) and `[200,264)` (size 64). -/
def c6run : Except AllocError HybridAllocator := do
  let s ← HybridAllocator.init 0 (264 * PAGE_SIZE)
  let (_, s) ← s.alloc_pages 100 4096
  let (_, s) ← s.alloc_pages 100 4096
  pure (s.dealloc_pages 0 100)

/-- Projection of `c6run` (the run succeeds, see `c6run_free_list`). -/
def c6state : HybridAllocator :=
  match c6run with
  | .ok s => s
  | .error _ => { base := 0, total_pages := 0, bitmap := [], free_list := [],
                  alloc_map := [], used_pages := 0 }

/-! ## Claim theorems -/

/-- C7: for the buddy allocator initialized with `base = 0x10000` and
`size = 32·PAGE_SIZE`, the sequence `alloc_pages(1,4096); alloc_pages(1,4096);
dealloc_pages(0x10000,1); dealloc_pages(0x11000,1)` returns `0x10000` then
`0x11000`, and the final free-list of order 5 contains exactly index 0 while
all smaller orders are empty. -/
theorem c7_buddy_split_coalesce :
    c7run.map (fun r => (r.1, r.2.1, r.2.2.free_lists)) =
      .ok (0x10000, 0x11000, [[], [], [], [], [], [0]]) := by
  decide

/-- C1 (falsified at the failing input): after `new(1); put 0; get 0; put 1`
the resident lists hold `|T1| + |T2| = 2 > 1 = c`, so the claimed global
invariant `|T1|+|T2| ≤ c` does not survive this reachable state.  The culprit
is `insert_new`, which only runs `replace` once the four lists total `2c`
(canonical ARC replaces from total `c` up). -/
theorem c1_arc_size_invariant_fails :
    c1run.capacity = 1 ∧ c1run.t1.length + c1run.t2.length = 2 ∧
      ¬ (c1run.t1.length + c1run.t2.length ≤ c1run.capacity) := by
  decide

/-- C3 (falsified at the failing input): on the hybrid allocator, a one-page
bitmap allocation and a subsequent 64-page free-list allocation both succeed
and both return the very first page of the region, with no deallocation in
between — two live extents overlap, because `init` hands the whole region to
the bitmap pool and to the free-list pool at once. -/
theorem c3_hybrid_extents_overlap : c3run = .ok (0, 0) := by
  decide

/-- C4 (falsified at the failing input): the second one-page buddy allocation
requesting 8192-byte alignment succeeds but returns `0x11000`, which is not
8192-aligned — `alloc_pages` validates `align_pow2` and then ignores it when
choosing the block. -/
theorem c4_alignment_ignored :
    c4run = .ok (0x10000, 0x11000) ∧ 0x11000 % 8192 = 4096 := by
  decide

/-- C2 (falsified at the failing input): `read_file_with_notify` on a path
whose VFS open fails still emits the `Access` event, because the source
triggers the event before delegating; the queue was empty before the call and
holds the Access event after it although the call returned the error. -/
theorem c2_read_file_emits_on_failure :
    c2watcher.event_queue = [] ∧
    c2run.1 = .error .NotFound ∧
    c2run.2.event_queue = [⟨.Access, "/f", 0⟩] := by
  decide

/-- C5 counterexample: with watch 1 = (`/a`, mask Create) and watch 2 =
(`/a`, mask Modify), a Modify event on `/a/x` is not enqueued although watch 2
prefix-matches it and has its kind bit set — `check_watch` only consults the
mask of the first prefix-matching watch. -/
theorem c5_any_watch_fails :
    (c5watcher.trigger c5event).event_queue = [] ∧
    (∃ kv ∈ c5watcher.watches,
      strStartsWith c5event.path kv.2.path = true ∧
      Nat.land kv.2.mask c5event.event_type.toBits ≠ 0) := by
  decide

/-! ## Helper lemmas -/

variable {K V : Type} [DecidableEq K]

theorem perm_cons_removeFirst {l : List K} {key : K} (h : key ∈ l) :
    l.Perm (key :: removeFirst l key) := by
  induction l with
  | nil => cases h
  | cons x xs ih =>
    by_cases hx : x = key
    · subst hx
      simp [removeFirst]
    · have hmem : key ∈ xs := by
        rcases List.mem_cons.mp h with h' | h'
        · exact absurd h'.symm hx
        · exact h'
      have hrw : removeFirst (x :: xs) key = x :: removeFirst xs key := by
        simp [removeFirst, hx]
      rw [hrw]
      exact ((ih hmem).cons x).trans (List.Perm.swap key x (removeFirst xs key))

theorem promote_to_t2_frame (s : ARCache K V) (key : K) :
    (s.promote_to_t2 key).b1 = s.b1 ∧ (s.promote_to_t2 key).b2 = s.b2 ∧
    (s.promote_to_t2 key).p = s.p ∧ (s.promote_to_t2 key).cache = s.cache ∧
    (s.promote_to_t2 key).hits = s.hits ∧ (s.promote_to_t2 key).misses = s.misses ∧
    (s.promote_to_t2 key).capacity = s.capacity := by
  unfold ARCache.promote_to_t2
  by_cases h1 : key ∈ s.t1
  · rw [if_pos h1]
    simp
  · rw [if_neg h1]
    by_cases h2 : key ∈ s.t2
    · rw [if_pos h2]
      simp
    · rw [if_neg h2]
      simp

theorem filter_removeFirst (l : List K) (key : K) :
    (removeFirst l key).filter (fun k => !(k == key)) =
      l.filter (fun k => !(k == key)) := by
  induction l with
  | nil => rfl
  | cons x xs ih =>
    by_cases hx : x = key
    · subst hx
      simp [removeFirst]
    · simp only [removeFirst, if_neg hx, List.filter_cons]
      have hbeq : (!(x == key)) = true := by simp [hx]
      rw [hbeq]
      simp [ih]

theorem promote_to_t2_filter (s : ARCache K V) (key : K) :
    (s.promote_to_t2 key).t1.filter (fun k => !(k == key)) =
      s.t1.filter (fun k => !(k == key)) ∧
    (s.promote_to_t2 key).t2.filter (fun k => !(k == key)) =
      s.t2.filter (fun k => !(k == key)) := by
  unfold ARCache.promote_to_t2
  by_cases h1 : key ∈ s.t1
  · rw [if_pos h1]
    refine ⟨filter_removeFirst s.t1 key, ?_⟩
    show (s.t2 ++ [key]).filter (fun k => !(k == key)) = _
    simp [List.filter_append]
  · rw [if_neg h1]
    by_cases h2 : key ∈ s.t2
    · rw [if_pos h2]
      refine ⟨rfl, ?_⟩
      show ((removeFirst s.t2 key ++ [key]).filter (fun k => !(k == key))) = _
      rw [List.filter_append, filter_removeFirst]
      simp
    · rw [if_neg h2]
      exact ⟨rfl, rfl⟩

theorem promote_to_t2_perm (s : ARCache K V) (key : K) :
    ((s.promote_to_t2 key).t1 ++ (s.promote_to_t2 key).t2).Perm (s.t1 ++ s.t2) := by
  unfold ARCache.promote_to_t2
  by_cases h1 : key ∈ s.t1
  · rw [if_pos h1]
    show (removeFirst s.t1 key ++ (s.t2 ++ [key])).Perm (s.t1 ++ s.t2)
    rw [← List.append_assoc]
    refine (List.perm_append_singleton _ _).trans ?_
    exact List.Perm.append_right s.t2 (perm_cons_removeFirst h1).symm
  · rw [if_neg h1]
    by_cases h2 : key ∈ s.t2
    · rw [if_pos h2]
      show (s.t1 ++ (removeFirst s.t2 key ++ [key])).Perm (s.t1 ++ s.t2)
      refine List.Perm.append_left s.t1 ?_
      exact (List.perm_append_singleton _ _).trans (perm_cons_removeFirst h2).symm
    · rw [if_neg h2]

/-! ## Claim theorems, continued -/

/-- C10: `get` leaves the ghost lists B1 and B2, the partition `p` and the
value store untouched; on a hit it bumps `hits` and only moves the looked-up
key within T1/T2 (their concatenation is a permutation of the old one, and
every other key stays in the list it was in, in order); on a miss it changes
nothing but `misses`. -/
theorem c10_get_frame (s : ARCache K V) (key : K) :
    (s.get key).2.b1 = s.b1 ∧ (s.get key).2.b2 = s.b2 ∧ (s.get key).2.p = s.p ∧
    (s.get key).2.cache = s.cache ∧ (s.get key).2.capacity = s.capacity ∧
    ((s.get key).2.t1 ++ (s.get key).2.t2).Perm (s.t1 ++ s.t2) ∧
    ((s.get key).1.isSome = true →
      (s.get key).2.hits = s.hits + 1 ∧ (s.get key).2.misses = s.misses ∧
      (s.get key).2.t1.filter (fun k => !(k == key)) = s.t1.filter (fun k => !(k == key)) ∧
      (s.get key).2.t2.filter (fun k => !(k == key)) = s.t2.filter (fun k => !(k == key))) ∧
    ((s.get key).1.isSome = false →
      (s.get key).2.misses = s.misses + 1 ∧ (s.get key).2.hits = s.hits ∧
      (s.get key).2.t1 = s.t1 ∧ (s.get key).2.t2 = s.t2) := by
  unfold ARCache.get
  cases h : amLookup s.cache key with
  | none => simp
  | some entry =>
    have hframe := promote_to_t2_frame { s with hits := s.hits + 1 } key
    have hperm := promote_to_t2_perm { s with hits := s.hits + 1 } key
    have hfilter := promote_to_t2_filter { s with hits := s.hits + 1 } key
    have hlk : amLookup (ARCache.promote_to_t2 { s with hits := s.hits + 1 } key).cache
        key = some entry := by
      rw [hframe.2.2.2.1]
      exact h
    refine ⟨hframe.1, hframe.2.1, hframe.2.2.1, hframe.2.2.2.1, hframe.2.2.2.2.2.2, hperm,
      fun _ => ⟨hframe.2.2.2.2.1, hframe.2.2.2.2.2.1, hfilter.1, hfilter.2⟩,
      fun hnone => ?_⟩
    simp [hlk] at hnone

/-- Witness for C10 at a concrete state: a `get` hit on a one-entry cache
keeps the value store and bumps the hit counter. -/
theorem c10_get_frame_witness :
    (((ARCache.new Nat Nat 2).put 5 7).get 5).2.cache = ((ARCache.new Nat Nat 2).put 5 7).cache ∧
    (((ARCache.new Nat Nat 2).put 5 7).get 5).2.hits = ((ARCache.new Nat Nat 2).put 5 7).hits + 1 := by
  refine ⟨(c10_get_frame ((ARCache.new Nat Nat 2).put 5 7) 5).2.2.2.1, ?_⟩
  exact ((c10_get_frame ((ARCache.new Nat Nat 2).put 5 7) 5).2.2.2.2.2.2.1 (by decide)).1

/-- C9: `dealloc_pages` on an unaligned address, an address outside the
region, or an address that is not the start of a live allocation is a silent
no-op on both the buddy and the hybrid allocator: the returned state is the
argument state, unchanged in every component. -/
theorem c9_dealloc_noop (sb : BuddyAllocator) (sh : HybridAllocator) (a b m n : Nat)
    (ha : a % PAGE_SIZE ≠ 0 ∨ a < sb.base ∨ sb.base + sb.total_pages * PAGE_SIZE ≤ a ∨
      slLookup sb.alloc_map ((a - sb.base) / PAGE_SIZE) = none)
    (hb : b % PAGE_SIZE ≠ 0 ∨ b < sh.base ∨ sh.base + sh.total_pages * PAGE_SIZE ≤ b ∨
      slLookup sh.alloc_map ((b - sh.base) / PAGE_SIZE) = none) :
    sb.dealloc_pages a m = sb ∧ sh.dealloc_pages b n = sh := by
  constructor
  · unfold BuddyAllocator.dealloc_pages
    by_cases hr : a < sb.base ∨ a ≥ sb.base + sb.total_pages * PAGE_SIZE
    · simp [hr]
    · by_cases hal : a % PAGE_SIZE = 0
      · have hlk : slLookup sb.alloc_map ((a - sb.base) / PAGE_SIZE) = none := by
          rcases ha with h | h | h | h
          · exact absurd hal h
          · exact absurd (Or.inl h) hr
          · exact absurd (Or.inr h) hr
          · exact h
        simp [hr, hal, hlk]
      · simp [hr, hal]
  · unfold HybridAllocator.dealloc_pages
    by_cases hr : b < sh.base ∨ b ≥ sh.base + sh.total_pages * PAGE_SIZE
    · simp [hr]
    · by_cases hal : b % PAGE_SIZE = 0
      · have hlk : slLookup sh.alloc_map ((b - sh.base) / PAGE_SIZE) = none := by
          rcases hb with h | h | h | h
          · exact absurd hal h
          · exact absurd (Or.inl h) hr
          · exact absurd (Or.inr h) hr
          · exact h
        simp [hr, hal, hlk]
      · simp [hr, hal]

/-- Concrete buddy state for the C9 witness. -/
def c9buddy : BuddyAllocator :=
  { base := 0, total_pages := 1, max_order := 0, free_lists := [[0]],
    alloc_map := [], used_pages := 0 }

/-- Concrete hybrid state for the C9 witness. -/
def c9hybrid : HybridAllocator :=
  { base := 0, total_pages := 8, bitmap := [0xFF], free_list := [(0, 8)],
    alloc_map := [], used_pages := 0 }

/-- Witness for C9: deallocating the unaligned in-range address 1 leaves both
concrete allocator states untouched. -/
theorem c9_dealloc_noop_witness :
    c9buddy.dealloc_pages 1 0 = c9buddy ∧ c9hybrid.dealloc_pages 1 0 = c9hybrid :=
  c9_dealloc_noop c9buddy c9hybrid 1 1 0 0 (by decide) (by decide)

theorem boundedPush_length_le (q : List NotifyEvent) (max_events : Nat) (e : NotifyEvent)
    (h : q.length ≤ max_events) (hm : 1 ≤ max_events) :
    (boundedPush q max_events e).length ≤ max_events := by
  unfold boundedPush
  by_cases hc : max_events ≤ q.length
  · rw [if_pos hc]
    simp only [List.length_append, List.length_drop, List.length_singleton]
    omega
  · rw [if_neg hc]
    simp only [List.length_append, List.length_singleton]
    omega

theorem trigger_cases (s : FileWatcher) (e : NotifyEvent) :
    s.trigger e = s ∨
    s.trigger e = { s with event_queue := boundedPush s.event_queue s.max_events e } := by
  unfold FileWatcher.trigger
  cases s.check_watch e.path with
  | none => exact Or.inl rfl
  | some mask =>
    by_cases hb : Nat.land mask e.event_type.toBits ≠ 0
    · exact Or.inr (if_pos hb)
    · exact Or.inl (if_neg hb)

theorem wreachable_invariant (s : FileWatcher) (h : WReachable s) :
    s.max_events = 1024 ∧ s.event_queue.length ≤ 1024 := by
  induction h with
  | new => exact ⟨rfl, by simp [FileWatcher.new]⟩
  | add_watch path mask _ ih => exact ⟨ih.1, ih.2⟩
  | remove_watch wd _ ih =>
    rename_i t _
    unfold FileWatcher.remove_watch
    cases hw : wlRemove t.watches wd with
    | mk found rest => cases found <;> simpa using ih
  | trigger e _ ih =>
    rename_i t _
    rcases trigger_cases t e with he | he <;> rw [he]
    · exact ih
    · refine ⟨ih.1, ?_⟩
      show (boundedPush t.event_queue t.max_events e).length ≤ 1024
      have hle : t.event_queue.length ≤ t.max_events := by rw [ih.1]; exact ih.2
      have hone : 1 ≤ t.max_events := by rw [ih.1]; norm_num
      rw [← ih.1]
      exact boundedPush_length_le t.event_queue t.max_events e hle hone
  | trigger_unchecked e _ ih =>
    rename_i t _
    refine ⟨ih.1, ?_⟩
    show (boundedPush t.event_queue t.max_events e).length ≤ 1024
    have hle : t.event_queue.length ≤ t.max_events := by rw [ih.1]; exact ih.2
    have hone : 1 ≤ t.max_events := by rw [ih.1]; norm_num
    rw [← ih.1]
    exact boundedPush_length_le t.event_queue t.max_events e hle hone
  | read_events n _ ih =>
    rename_i t _
    refine ⟨ih.1, ?_⟩
    show (t.event_queue.drop (min n t.event_queue.length)).length ≤ 1024
    simp only [List.length_drop]
    omega

/-- C8: in every reachable watcher state the queue holds at most `max_events`
entries, both trigger entry points keep it that way, and an enqueue onto a
full queue drops the oldest entry before appending (the queue becomes
`drop 1 ++ [e]` exactly when `max_events ≤ |queue|`). -/
theorem c8_queue_bound (s : FileWatcher) (e : NotifyEvent) (h : WReachable s) :
    s.event_queue.length ≤ s.max_events ∧
    (s.trigger_unchecked e).event_queue.length ≤ s.max_events ∧
    (s.trigger e).event_queue.length ≤ s.max_events ∧
    (s.trigger_unchecked e).event_queue =
      (if s.max_events ≤ s.event_queue.length then s.event_queue.drop 1
        else s.event_queue) ++ [e] ∧
    ((s.trigger e).event_queue = s.event_queue ∨
      (s.trigger e).event_queue =
        (if s.max_events ≤ s.event_queue.length then s.event_queue.drop 1
          else s.event_queue) ++ [e]) := by
  obtain ⟨hm, hq⟩ := wreachable_invariant s h
  have hq' : s.event_queue.length ≤ s.max_events := by rw [hm]; exact hq
  have hpush : (boundedPush s.event_queue s.max_events e).length ≤ s.max_events := by
    exact boundedPush_length_le s.event_queue s.max_events e hq' (by rw [hm]; norm_num)
  refine ⟨hq', hpush, ?_, rfl, ?_⟩
  · rcases trigger_cases s e with he | he <;> rw [he]
    · exact hq'
    · exact hpush
  · rcases trigger_cases s e with he | he <;> rw [he]
    · exact Or.inl rfl
    · exact Or.inr rfl

/-- Witness for C8 at the freshly created watcher and a concrete event. -/
theorem c8_queue_bound_witness :
    FileWatcher.new.event_queue.length ≤ FileWatcher.new.max_events ∧
    (FileWatcher.new.trigger_unchecked ⟨.Access, "/a", 0⟩).event_queue.length ≤
      FileWatcher.new.max_events ∧
    (FileWatcher.new.trigger ⟨.Access, "/a", 0⟩).event_queue.length ≤
      FileWatcher.new.max_events ∧
    (FileWatcher.new.trigger_unchecked ⟨.Access, "/a", 0⟩).event_queue =
      (if FileWatcher.new.max_events ≤ FileWatcher.new.event_queue.length then
        FileWatcher.new.event_queue.drop 1 else FileWatcher.new.event_queue) ++
        [⟨.Access, "/a", 0⟩] ∧
    ((FileWatcher.new.trigger ⟨.Access, "/a", 0⟩).event_queue =
        FileWatcher.new.event_queue ∨
      (FileWatcher.new.trigger ⟨.Access, "/a", 0⟩).event_queue =
        (if FileWatcher.new.max_events ≤ FileWatcher.new.event_queue.length then
          FileWatcher.new.event_queue.drop 1 else FileWatcher.new.event_queue) ++
          [⟨.Access, "/a", 0⟩]) :=
  c8_queue_bound FileWatcher.new ⟨.Access, "/a", 0⟩ WReachable.new

/-- Declarative first-match predicate: `w` sits at some position of `ws`,
its path prefixes `path`, and every earlier watch fails the prefix test. -/
def IsFirstMatch (ws : List WatchEntry) (path : String) (w : WatchEntry) : Prop :=
  ∃ i : Nat, ws.get? i = some w ∧ strStartsWith path w.path = true ∧
    ∀ j, j < i → ∀ w', ws.get? j = some w' → strStartsWith path w'.path = false

theorem find?_isFirstMatch {p : WatchEntry → Bool} {l : List WatchEntry} {w : WatchEntry}
    (h : l.find? p = some w) :
    ∃ i : Nat, l.get? i = some w ∧ p w = true ∧
      ∀ j, j < i → ∀ w', l.get? j = some w' → p w' = false := by
  induction l with
  | nil => simp [List.find?] at h
  | cons x xs ih =>
    by_cases hx : p x
    · rw [List.find?_cons_of_pos _ hx] at h
      refine ⟨0, ?_, ?_, ?_⟩
      · simpa using h
      · cases h
        exact hx
      · intro j hj
        omega
    · rw [List.find?_cons_of_neg _ (by simpa using hx)] at h
      obtain ⟨i, hg, hp, hearlier⟩ := ih h
      refine ⟨i + 1, by simpa using hg, hp, ?_⟩
      intro j hj w' hw'
      cases j with
      | zero =>
        simp at hw'
        subst hw'
        simpa using hx
      | succ j' =>
        exact hearlier j' (by omega) w' (by simpa using hw')

theorem isFirstMatch_find? {p : WatchEntry → Bool} {l : List WatchEntry} {w : WatchEntry}
    (hp : ∀ w', p w' = strStartsWith pathArg w'.path) (h : IsFirstMatch l pathArg w) :
    l.find? p = some w := by
  obtain ⟨i, hg, hsw, hearlier⟩ := h
  induction l generalizing i with
  | nil => simp at hg
  | cons x xs ih =>
    by_cases hx : p x
    · rw [List.find?_cons_of_pos _ hx]
      cases i with
      | zero =>
        simp at hg
        rw [hg]
      | succ i' =>
        have := hearlier 0 (by omega) x (by simp)
        rw [hp x] at hx
        rw [this] at hx
        cases hx
    · rw [List.find?_cons_of_neg _ (by simpa using hx)]
      cases i with
      | zero =>
        simp at hg
        subst hg
        exact absurd (by rw [hp x]; exact hsw) hx
      | succ i' =>
        refine ih i' (by simpa using hg) ?_
        intro j hj w' hw'
        exact hearlier (j + 1) (by omega) w' (by simpa using hw')

/-- C5 (amended): `trigger` enqueues the event exactly when the first watch in
ascending-descriptor order whose path prefixes the event's path exists and has
the event's kind bit set in its mask; the enqueue is the single bounded
append, and otherwise the queue is left untouched. -/
theorem c5_trigger_first_match (s : FileWatcher) (e : NotifyEvent) :
    (∃ w, IsFirstMatch (s.watches.map Prod.snd) e.path w ∧
      Nat.land w.mask e.event_type.toBits ≠ 0 ∧
      (s.trigger e).event_queue = boundedPush s.event_queue s.max_events e) ∨
    ((∀ w, IsFirstMatch (s.watches.map Prod.snd) e.path w →
        Nat.land w.mask e.event_type.toBits = 0) ∧
      (s.trigger e).event_queue = s.event_queue) := by
  cases hf : (s.watches.map Prod.snd).find? (fun entry => strStartsWith e.path entry.path) with
  | none =>
    refine Or.inr ⟨?_, ?_⟩
    · intro w hw
      have := isFirstMatch_find? (fun w' => rfl) hw
      rw [hf] at this
      exact Option.noConfusion this
    · show (FileWatcher.trigger s e).event_queue = s.event_queue
      unfold FileWatcher.trigger FileWatcher.check_watch
      rw [hf]
      rfl
  | some w =>
    have hcw : s.check_watch e.path = some w.mask := by
      unfold FileWatcher.check_watch
      rw [hf]
      rfl
    by_cases hb : Nat.land w.mask e.event_type.toBits ≠ 0
    · refine Or.inl ⟨w, find?_isFirstMatch hf, hb, ?_⟩
      show (FileWatcher.trigger s e).event_queue = _
      unfold FileWatcher.trigger
      rw [hcw]
      exact congrArg FileWatcher.event_queue (if_pos hb)
    · refine Or.inr ⟨?_, ?_⟩
      · intro w' hw'
        have := isFirstMatch_find? (fun w'' => rfl) hw'
        rw [hf] at this
        cases this
        exact not_ne_iff.mp hb
      · show (FileWatcher.trigger s e).event_queue = s.event_queue
        unfold FileWatcher.trigger
        rw [hcw]
        exact congrArg FileWatcher.event_queue (if_neg hb)

/-- Witness for C5's amended theorem: with a single Modify watch on `/a`, a
Modify event under `/a` is appended to the queue. -/
theorem c5_trigger_first_match_witness :
    ((FileWatcher.new.add_watch "/a" 2).2.trigger ⟨.Modify, "/a/x", 0⟩).event_queue =
      boundedPush (FileWatcher.new.add_watch "/a" 2).2.event_queue
        (FileWatcher.new.add_watch "/a" 2).2.max_events ⟨.Modify, "/a/x", 0⟩ := by
  rcases c5_trigger_first_match (FileWatcher.new.add_watch "/a" 2).2 ⟨.Modify, "/a/x", 0⟩ with
    ⟨w, _, _, hq⟩ | ⟨_, hq⟩
  · exact hq
  · exact absurd hq (by decide)

theorem findFirstFit_spec (needed : Nat) (l : List (Nat × Nat))
    (hs : l.Pairwise (fun a b => a.1 < b.1)) (i sz : Nat)
    (h : findFirstFit needed l = some (i, sz)) :
    (i, sz) ∈ l ∧ needed ≤ sz ∧ ∀ j t, (j, t) ∈ l → needed ≤ t → i ≤ j := by
  induction l with
  | nil => simp [findFirstFit] at h
  | cons hd rest ih =>
    obtain ⟨k, v⟩ := hd
    unfold findFirstFit at h
    by_cases hv : needed ≤ v
    · rw [if_pos hv] at h
      obtain ⟨hik, hsv⟩ : i = k ∧ sz = v := by
        cases h
        exact ⟨rfl, rfl⟩
      subst hik
      subst hsv
      refine ⟨List.mem_cons_self _ _, hv, ?_⟩
      intro j t hmem _
      rcases List.mem_cons.mp hmem with hhd | hrest
      · cases hhd
        exact Nat.le_refl _
      · exact Nat.le_of_lt ((List.pairwise_cons.mp hs).1 (j, t) hrest)
    · rw [if_neg hv] at h
      obtain ⟨hmem, hfit, hmin⟩ := ih (List.pairwise_cons.mp hs).2 h
      refine ⟨List.mem_cons_of_mem _ hmem, hfit, ?_⟩
      intro j t hjt hfit'
      rcases List.mem_cons.mp hjt with hhd | hrest
      · obtain ⟨hj, ht⟩ : j = k ∧ t = v := by
          cases hhd
          exact ⟨rfl, rfl⟩
        subst hj
        subst ht
        exact absurd hfit' hv
      · exact hmin j t hrest hfit'

theorem ffbScan_spec (bm : List Nat) (needed : Nat) :
    ∀ fuel start st, ffbScan bm needed start fuel = some st →
      runFree bm st needed = true ∧
        ∀ u, start ≤ u → u < st → runFree bm u needed = false := by
  intro fuel
  induction fuel with
  | zero => intro start st h; simp [ffbScan] at h
  | succ f ih =>
    intro start st h
    unfold ffbScan at h
    by_cases hr : runFree bm start needed
    · rw [if_pos hr] at h
      cases h
      exact ⟨hr, fun u h1 h2 => absurd (Nat.lt_of_le_of_lt h1 h2) (Nat.lt_irrefl _)⟩
    · rw [if_neg hr] at h
      obtain ⟨hrun, hearlier⟩ := ih (start + 1) st h
      refine ⟨hrun, ?_⟩
      intro u h1 h2
      by_cases hu : u = start
      · subst hu
        exact Bool.not_eq_true _ ▸ (by simpa using hr)
      · exact hearlier u (by omega) h2

/-- C6 counterexample: in the reachable hybrid state `c6state` the free list
holds blocks `(0, 100)` and `(200, 64)`; for a 64-page request both fit and
their sizes differ, yet `find_free_block` picks the larger block at index 0
rather than the exactly fitting 64-page block — the choice is not best-fit. -/
theorem c6_best_fit_fails :
    c6state.free_list = [(0, 100), (200, 64)] ∧
    c6state.find_free_block 64 = some (0, 100) ∧
    64 ≤ 64 ∧ 64 ≤ 100 ∧ ¬ (100 ≤ 64) := by
  decide

/-- C6 (amended): both hybrid search paths are first-fit, not best-fit.  On a
free list sorted by start index, `find_free_block` returns a fitting block
with the least start index among all fitting blocks; `find_free_in_bitmap`
returns the least start page of any sufficiently long free run. -/
theorem c6_first_fit (s : HybridAllocator) (needed : Nat)
    (hs : s.free_list.Pairwise (fun a b => a.1 < b.1)) :
    (∀ i sz, s.find_free_block needed = some (i, sz) →
      (i, sz) ∈ s.free_list ∧ needed ≤ sz ∧
        ∀ j t, (j, t) ∈ s.free_list → needed ≤ t → i ≤ j) ∧
    (∀ st, s.find_free_in_bitmap needed = some st →
      runFree s.bitmap st needed = true ∧
        ∀ u, u < st → runFree s.bitmap u needed = false) := by
  constructor
  · intro i sz h
    exact findFirstFit_spec needed s.free_list hs i sz h
  · intro st h
    obtain ⟨hrun, hearlier⟩ :=
      ffbScan_spec s.bitmap needed (s.total_pages - needed + 1) 0 st h
    exact ⟨hrun, fun u hu => hearlier u (Nat.zero_le u) hu⟩

/-- Witness for C6's amended theorem at the concrete reachable state
`c6state`: the chosen block `(0, 100)` is in the free list, fits the 64-page
request, and no fitting block starts below index 0. -/
theorem c6_first_fit_witness :
    (0, 100) ∈ c6state.free_list ∧ 64 ≤ 100 ∧
    ((200, 64) ∈ c6state.free_list → 64 ≤ 64 → 0 ≤ 200) := by
  have h := (c6_first_fit c6state 64 (by decide)).1 0 100 (by decide)
  exact ⟨h.1, h.2.1, fun hm hf => h.2.2 200 64 hm hf⟩

end Unfound
